import Mathlib

/-!
Verification of the DynaCal date/time normalization core against its
natural-language specification.

The development shallowly embeds the two utility modules
`src/utils/dateParser.js` and `src/utils/icsGenerator.js`:

* strings are `List Char`; the anchored JavaScript regular expressions used by
  `parseTime` and `parseEventDateTime` are embedded as deterministic
  tokenizers (`matchTime`, `matchEvent`) that realize the regexes'
  backtracking semantics (each quantified sub-pattern is followed by a
  character it can never consume, so greedy maximal-run scanning is exact);
* JavaScript `Date` construction (`new Date(y, mo, d, h, mi)`) is embedded by
  `mkDate`, which normalizes arbitrary day/hour/minute overflow into civil
  calendar fields exactly as ECMAScript `MakeDay`/`MakeTime` do (including
  the historical mapping of constructor years 0–99 to 1900–1999);
* fallible JavaScript returns (`null`) become `Option`.
-/

/-! ### Character classes of the JavaScript regexes (no `u` flag: ASCII classes) -/

/-- Embedding of the JavaScript regex class for digits: the ASCII digits. -/
def isAsciiDigit (c : Char) : Bool :=
  '0' ≤ c && c ≤ '9'

/-- Embedding of the JavaScript regex word class: ASCII letters, digits and underscore. -/
def isWordChar (c : Char) : Bool :=
  ('a' ≤ c && c ≤ 'z') || ('A' ≤ c && c ≤ 'Z') || ('0' ≤ c && c ≤ '9') || c = '_'

/-- Embedding of the JavaScript regex whitespace class: ASCII whitespace plus
the Unicode space separators, line separators and the BOM. -/
def isJsSpace (c : Char) : Bool :=
  c = ' ' || c = '\t' || c = '\n' || c = '\r' || c = '\x0b' || c = '\x0c' ||
  c = ' ' || c = ' ' || (' ' ≤ c && c ≤ ' ') ||
  c = ' ' || c = ' ' || c = ' ' || c = ' ' ||
  c = '　' || c = '﻿'

/-- Value of `parseInt(s, 10)` on a string of ASCII digits. -/
def natOfDigits (ds : List Char) : Nat :=
  ds.foldl (fun a c => a * 10 + (c.toNat - 48)) 0

/-! ### Tokenizer steps shared by the two regex embeddings -/

/-- Consume one fixed character. -/
def expectChar (c : Char) : List Char → Option (List Char)
  | x :: r => if x = c then some r else none
  | [] => none

/-- Consume a nonempty maximal run of characters satisfying `p`
(the embedding of a greedy `p+` that is followed by a non-`p` pattern). -/
def spanRequire (p : Char → Bool) (cs : List Char) : Option (List Char × List Char) :=
  let (a, b) := cs.span p
  if a.isEmpty then none else some (a, b)

/-- The embedding of `(\d{1,2})` followed by a non-digit pattern: the maximal
digit run must have length 1 or 2. -/
def digits12 (cs : List Char) : Option (List Char × List Char) :=
  let (a, b) := cs.span isAsciiDigit
  if a.length = 0 || 2 < a.length then none else some (a, b)

/-- The embedding of `(\d{2})`: exactly two digit characters. -/
def twoDigits : List Char → Option (List Char × List Char)
  | a :: b :: r => if isAsciiDigit a && isAsciiDigit b then some ([a, b], r) else none
  | _ => none

/-- The embedding of `(AM|PM)` under the `i` flag: two characters from
`{A,a,P,p}` and `{M,m}`, captured in their original case. -/
def ampm : List Char → Option (List Char × List Char)
  | p :: q :: r =>
    if (p = 'A' || p = 'a' || p = 'P' || p = 'p') && (q = 'M' || q = 'm') then
      some ([p, q], r)
    else none
  | _ => none

/-- The embedding of `[–-]`: a Unicode en-dash or an ASCII hyphen. -/
def expectDash : List Char → Option (List Char)
  | x :: r => if x = '–' || x = '-' then some r else none
  | [] => none

/-! ### `parseTime` (dateParser.js lines 6–24) -/

/-- Result shape of `parseTime`: `{ hours, minutes }`. -/
structure TimeHM where
  hours : Nat
  minutes : Nat
deriving Repr, DecidableEq

/-- Capture groups of `/^(\d{1,2}):(\d{2})\s*(AM|PM)$/i`. -/
structure TimeMatch where
  hoursStr : List Char
  minutesStr : List Char
  periodStr : List Char
deriving Repr, DecidableEq

/-- The anchored match of `/^(\d{1,2}):(\d{2})\s*(AM|PM)$/i` against the
whole input. -/
def matchTime (cs : List Char) : Option TimeMatch := do
  let (hDs, r1) ← digits12 cs
  let r2 ← expectChar ':' r1
  let (mDs, r3) ← twoDigits r2
  let r4 := r3.dropWhile isJsSpace
  let (per, r5) ← ampm r4
  if r5.isEmpty then some ⟨hDs, mDs, per⟩ else none

/-- Embedding of `parseTime` from dateParser.js: 12-hour clock token to
24-hour hours/minutes, `none` when the text does not match or the hour is
outside 1–12. -/
def parseTime (s : String) : Option TimeHM :=
  match matchTime s.data with
  | none => none
  | some m =>
    let hours := natOfDigits m.hoursStr
    let minutes := natOfDigits m.minutesStr
    let period := m.periodStr.map Char.toUpper
    if hours < 1 || 12 < hours then none
    else if period == ['P', 'M'] && hours != 12 then some ⟨hours + 12, minutes⟩
    else if period == ['A', 'M'] && hours == 12 then some ⟨0, minutes⟩
    else some ⟨hours, minutes⟩

/-! ### JavaScript `Date` construction -/

/-- The observable fields of a JavaScript `Date` in local time, as read back
by `getFullYear`/`getMonth` (0-indexed)/`getDate`/`getHours`/`getMinutes`/
`getSeconds`. -/
structure JSDate where
  year : Int
  month : Nat
  day : Nat
  hour : Nat
  minute : Nat
  second : Nat
deriving Repr, DecidableEq

/-- Days from the civil epoch 1970-01-01 for a (possibly out-of-range) day of
a 1-indexed month; standard civil-calendar arithmetic, using floor
division so arbitrary integers normalize. -/
def daysFromCivil (y : Int) (m : Nat) (d : Int) : Int :=
  let y2 : Int := y - (if m ≤ 2 then 1 else 0)
  let era : Int := y2.fdiv 400
  let yoe : Nat := (y2.fmod 400).toNat
  let doy : Nat := (153 * (if 2 < m then m - 3 else m + 9) + 2) / 5
  let doe : Nat := yoe * 365 + yoe / 4 - yoe / 100 + doy
  era * 146097 + (doe : Int) + (d - 1) - 719468

/-- Civil date (year, 1-indexed month, day) from days since 1970-01-01. -/
def civilFromDays (z : Int) : Int × Nat × Nat :=
  let z2 : Int := z + 719468
  let era : Int := z2.fdiv 146097
  let doe : Nat := (z2.fmod 146097).toNat
  let yoe : Nat := (doe - doe / 1460 + doe / 36524 - doe / 146096) / 365
  let doy : Nat := doe - (365 * yoe + yoe / 4 - yoe / 100)
  let mp : Nat := (5 * doy + 2) / 153
  let d : Nat := doy - (153 * mp + 2) / 5 + 1
  let m : Nat := if mp < 10 then mp + 3 else mp - 9
  (era * 400 + (yoe : Int) + (if m ≤ 2 then 1 else 0), m, d)

/-- Embedding of `new Date(year, month, day, hour, minute)` with a 0-indexed
month in 0–11: ECMAScript coerces a constructor year in 0–99 to 1900–1999,
then normalizes day/hour/minute overflow through the time value. -/
def mkDate (year : Int) (month : Nat) (day hour minute : Nat) : JSDate :=
  let y : Int := if 0 ≤ year ∧ year ≤ 99 then year + 1900 else year
  let totalMin : Int := daysFromCivil y (month + 1) day * 1440 + hour * 60 + minute
  let days : Int := totalMin.fdiv 1440
  let rem : Nat := (totalMin.fmod 1440).toNat
  let c := civilFromDays days
  ⟨c.1, c.2.1 - 1, c.2.2, rem / 60, rem % 60, 0⟩

/-! ### `formatISODate` (dateParser.js lines 45–56) -/

/-- Decimal digits of a natural number, as `String(n)` renders it. -/
def natToDigits (n : Nat) : List Char :=
  if h : n < 10 then [Char.ofNat (48 + n)]
  else natToDigits (n / 10) ++ [Char.ofNat (48 + n % 10)]
decreasing_by exact Nat.div_lt_self (by omega) (by omega)

/-- Rendering of `String(i)` for an integer. -/
def intToDigits (i : Int) : List Char :=
  if i < 0 then '-' :: natToDigits i.natAbs else natToDigits i.toNat

/-- Value of a `padStart(2, '0')` call on the decimal rendering of `n`. -/
def pad2 (n : Nat) : List Char :=
  let s := natToDigits n
  List.replicate (2 - s.length) '0' ++ s

/-- Embedding of `formatISODate` from dateParser.js: the compact
`YYYYMMDDTHHMMSS` rendering of a date's local fields. -/
def formatISODate (d : JSDate) : List Char :=
  intToDigits d.year ++ pad2 (d.month + 1) ++ pad2 d.day ++
    'T' :: (pad2 d.hour ++ pad2 d.minute ++ pad2 d.second)

/-! ### `parseEventDateTime` (dateParser.js lines 61–140) -/

/-- The twelve entries of the month object literal `MONTHS` of
dateParser.js: three-letter lowercase key to 0-indexed month. -/
def MONTHS_TABLE : List (List Char × Nat) :=
  [("jan".data, 0), ("feb".data, 1), ("mar".data, 2), ("apr".data, 3),
   ("may".data, 4), ("jun".data, 5), ("jul".data, 6), ("aug".data, 7),
   ("sep".data, 8), ("oct".data, 9), ("nov".data, 10), ("dec".data, 11)]

/-- The property lookup `MONTHS[monthKey]` of dateParser.js. -/
def MONTHS (k : List Char) : Option Nat :=
  (MONTHS_TABLE.find? (fun e => e.1 == k)).map Prod.snd

/-- Capture groups of
`/^(?:\w+),\s+(\w+)\s+(\d{1,2}),\s+(\d{1,2}):(\d{2})\s*[–-]\s*(\d{1,2}):(\d{2})\s*(AM|PM)\s+(\w+)$/i`. -/
structure EventMatch where
  monthStr : List Char
  dayStr : List Char
  startHourStr : List Char
  startMinStr : List Char
  endHourStr : List Char
  endMinStr : List Char
  periodStr : List Char
  tzStr : List Char
deriving Repr, DecidableEq

/-- The fragment `(?:\w+),\s+(\w+)\s+` of the event pattern: weekday, comma,
spaces, month token, spaces. Yields the month token and the remainder. -/
def matchEventHead (cs : List Char) : Option (List Char × List Char) := do
  let (_, r1) ← spanRequire isWordChar cs
  let r2 ← expectChar ',' r1
  let (_, r3) ← spanRequire isJsSpace r2
  let (mon, r4) ← spanRequire isWordChar r3
  let (_, r5) ← spanRequire isJsSpace r4
  some (mon, r5)

/-- The fragment `(\d{1,2}):(\d{2})` of the event pattern: a clock time.
Yields the hour digits, the minute digits and the remainder. -/
def matchEventTime (cs : List Char) : Option (List Char × List Char × List Char) := do
  let (hDs, r1) ← digits12 cs
  let r2 ← expectChar ':' r1
  let (mDs, r3) ← twoDigits r2
  some (hDs, mDs, r3)

/-- The fragment `\s*(AM|PM)\s+(\w+)$` of the event pattern: optional
spaces, the shared meridiem marker, spaces, the timezone token, end of
input. Yields the marker and timezone tokens. -/
def matchEventSuffix (cs : List Char) : Option (List Char × List Char) := do
  let (per, r1) ← ampm (cs.dropWhile isJsSpace)
  let (_, r2) ← spanRequire isJsSpace r1
  let (tz, r3) ← spanRequire isWordChar r2
  if r3.isEmpty then some (per, tz) else none

/-- The anchored match of the event pattern against the whole input: the
prefix fragment, the day `(\d{1,2}),\s+`, the start time, `\s*[–-]\s*`,
the end time, and the suffix fragment. -/
def matchEvent (cs : List Char) : Option EventMatch :=
  (matchEventHead cs).bind fun x =>
  (digits12 x.2).bind fun y =>
  (expectChar ',' y.2).bind fun r3 =>
  (spanRequire isJsSpace r3).bind fun z =>
  (matchEventTime z.2).bind fun t1 =>
  (expectDash (t1.2.2.dropWhile isJsSpace)).bind fun r6 =>
  (matchEventTime (r6.dropWhile isJsSpace)).bind fun t2 =>
  (matchEventSuffix t2.2.2).bind fun pt =>
  some ⟨x.1, y.1, t1.1, t1.2.1, t2.1, t2.2.1, pt.1, pt.2⟩

/-- The numeric and string fields `parseEventDateTime` computes from a
successful match: exactly the arguments of its two `new Date(...)` calls
plus the timezone label it returns. -/
structure EventFields where
  year : Int
  month : Nat
  day : Nat
  startHour : Nat
  startMin : Nat
  endHour : Nat
  endMin : Nat
  timezone : List Char
deriving Repr, DecidableEq

/-- The computation of `parseEventDateTime` up to (but not including) the two
`new Date(...)` constructions. -/
def parseEventFields (s : String) (referenceYear : Int) : Option EventFields :=
  match matchEvent s.data with
  | none => none
  | some m =>
    match MONTHS ((m.monthStr.map Char.toLower).take 3) with
    | none => none
    | some month =>
      let day := natOfDigits m.dayStr
      let startHour := natOfDigits m.startHourStr
      let startMin := natOfDigits m.startMinStr
      let endHour := natOfDigits m.endHourStr
      let endMin := natOfDigits m.endMinStr
      let isPM := m.periodStr.map Char.toUpper == ['P', 'M']
      let endHour := if isPM && endHour != 12 then endHour + 12
        else if !isPM && endHour == 12 then 0 else endHour
      let startHour := if isPM && startHour != 12 then startHour + 12
        else if !isPM && startHour == 12 then 0 else startHour
      let year := if month < 11 then referenceYear + 1 else referenceYear
      some ⟨year, month, day, startHour, startMin, endHour, endMin,
        m.tzStr.map Char.toUpper⟩

/-- Result shape of `parseEventDateTime`:
`{ startDate, endDate, timezone }`. -/
structure ParsedEvent where
  startDate : JSDate
  endDate : JSDate
  timezone : List Char
deriving Repr, DecidableEq

/-- Embedding of `parseEventDateTime` on a string argument (the guard clause
for non-string arguments is modelled by `parseEventDateTimeJS`). -/
def parseEventDateTimeStr (s : String) (referenceYear : Int) : Option ParsedEvent :=
  match parseEventFields s referenceYear with
  | none => none
  | some f =>
    some ⟨mkDate f.year f.month f.day f.startHour f.startMin,
      mkDate f.year f.month f.day f.endHour f.endMin, f.timezone⟩

/-- A dynamically typed JavaScript argument, as far as the guard clause of
`parseEventDateTime` can distinguish it. -/
inductive JSValue where
  | str (s : String)
  | num (n : Int)
  | boolean (b : Bool)
  | null
  | undefined
deriving Repr, DecidableEq

/-- Embedding of `parseEventDateTime` including its guard clause: non-string
arguments and the empty string (the only falsy string) yield `none`. -/
def parseEventDateTimeJS (v : JSValue) (referenceYear : Int) : Option ParsedEvent :=
  match v with
  | .str s => if s = "" then none else parseEventDateTimeStr s referenceYear
  | _ => none

/-! ### ICS generation (icsGenerator.js) -/

/-- Embedding of a global `replace` call for a single-character pattern. -/
def replaceChar (c : Char) (rep : List Char) : List Char → List Char
  | [] => []
  | x :: xs => (if x = c then rep else [x]) ++ replaceChar c rep xs

/-- Embedding of `escapeICSText` from icsGenerator.js: backslash, then
semicolon, then comma, then newline. -/
def escapeICSText (text : List Char) : List Char :=
  replaceChar '\n' ['\\', 'n']
    (replaceChar ',' ['\\', ',']
      (replaceChar ';' ['\\', ';']
        (replaceChar '\\' ['\\', '\\'] text)))

/-- Specification-side single-pass escape, following the spec's words: each
special character is escaped exactly once, backslash first so that the
backslashes introduced by the later substitutions are never re-escaped.
Compared against the source's sequential `replace` chain in `escapeOrdered`. -/
def escapeICSTextSpec : List Char → List Char
  | [] => []
  | c :: cs =>
    (if c = '\\' then ['\\', '\\'] else if c = ';' then ['\\', ';']
     else if c = ',' then ['\\', ','] else if c = '\n' then ['\\', 'n'] else [c]) ++
    escapeICSTextSpec cs

/-- The continuation lines pushed by the `while` loop of `foldLine`: a space
plus up to 74 characters, until the remainder is exhausted. -/
def foldRest : List Char → List (List Char)
  | [] => []
  | c :: rest =>
    (' ' :: (c :: rest).take 74) :: foldRest ((c :: rest).drop 74)
termination_by l => l.length
decreasing_by simp; omega

/-- The physical segments `foldLine` accumulates in its `result` array
before joining them with CRLF. -/
def foldLine (line : List Char) : List (List Char) :=
  if line.length ≤ 75 then [line]
  else line.take 75 :: foldRest (line.drop 75)

/-- Embedding of a `join` call with the CRLF separator. -/
def joinCRLF : List (List Char) → List Char
  | [] => []
  | [x] => x
  | x :: y :: rest => x ++ '\r' :: '\n' :: joinCRLF (y :: rest)

/-- Embedding of `foldLine` from icsGenerator.js as written: the folded
segments joined with CRLF. -/
def foldLineStr (line : List Char) : List Char :=
  joinCRLF (foldLine line)

/-- Splitting on the CRLF separator: the physical lines of a CRLF-delimited
text (how a consumer reads the generated file back). -/
def splitCRLF : List Char → List (List Char)
  | [] => [[]]
  | [c] => [[c]]
  | c :: d :: rest =>
    if c = '\r' && d = '\n' then [] :: splitCRLF rest
    else
      match splitCRLF (d :: rest) with
      | [] => [[c]]
      | p :: ps => (c :: p) :: ps

/-- The event record consumed by `generateICS`; the optional fields model
the truthiness checks `if (event.location)` etc. -/
structure ICSEvent where
  title : List Char
  startDate : JSDate
  endDate : JSDate
  location : Option (List Char)
  url : Option (List Char)
  description : Option (List Char)

/-- JavaScript truthiness of an optional string field: absent and empty are
falsy. -/
def truthy : Option (List Char) → Bool
  | none => false
  | some [] => false
  | some (_ :: _) => true

/-- The `lines` array `generateICS` builds before folding. The generation
timestamp `new Date()` and the `generateUID(event)` value depend on the
ambient clock and PRNG, so they are explicit parameters `now` and `uid`. -/
def buildLines (now : JSDate) (uid : List Char) (ev : ICSEvent) : List (List Char) :=
  ["BEGIN:VCALENDAR".data,
   "VERSION:2.0".data,
   "PRODID:-//Circle Calendar Exporter//Dynamous AI//EN".data,
   "CALSCALE:GREGORIAN".data,
   "METHOD:PUBLISH".data,
   "BEGIN:VEVENT".data,
   "UID:".data ++ uid,
   "DTSTAMP:".data ++ formatISODate now ++ ['Z'],
   "DTSTART:".data ++ formatISODate ev.startDate,
   "DTEND:".data ++ formatISODate ev.endDate,
   "SUMMARY:".data ++ escapeICSText ev.title] ++
  (if truthy ev.location then ["LOCATION:".data ++ escapeICSText (ev.location.getD [])] else []) ++
  (if truthy ev.url then ["URL:".data ++ ev.url.getD []] else []) ++
  (if truthy ev.description then ["DESCRIPTION:".data ++ escapeICSText (ev.description.getD [])] else []) ++
  ["END:VEVENT".data,
   "END:VCALENDAR".data]

/-- Embedding of `generateICS` from icsGenerator.js: fold each field line
and join the results with CRLF. -/
def generateICS (now : JSDate) (uid : List Char) (ev : ICSEvent) : List Char :=
  joinCRLF ((buildLines now uid ev).map foldLineStr)

/-! ## Inversion lemmas for the tokenizers -/

/-- Inversion of a successful `ampm` step: the input starts with one of the
eight character pairs the case-insensitive alternation accepts. -/
lemma ampm_inv {cs per r : List Char} (h : ampm cs = some (per, r)) :
    ∃ p q, cs = p :: q :: r ∧ per = [p, q] ∧
      (p = 'A' ∨ p = 'a' ∨ p = 'P' ∨ p = 'p') ∧ (q = 'M' ∨ q = 'm') := by
  match cs with
  | [] => simp [ampm] at h
  | [c] => simp [ampm] at h
  | p :: q :: rest =>
    simp only [ampm] at h
    split at h
    · rename_i hcond
      simp only [Bool.and_eq_true, Bool.or_eq_true, decide_eq_true_eq] at hcond
      rw [Option.some.injEq, Prod.mk.injEq] at h
      exact ⟨p, q, by rw [h.2], h.1.symm, by tauto, by tauto⟩
    · exact absurd h (by simp)

/-- Uppercasing a captured meridiem marker yields AM or PM. -/
lemma ampm_period_upper {cs per r : List Char} (h : ampm cs = some (per, r)) :
    per.map Char.toUpper = ['A', 'M'] ∨ per.map Char.toUpper = ['P', 'M'] := by
  obtain ⟨p, q, -, rfl, hp, hq⟩ := ampm_inv h
  rcases hp with rfl | rfl | rfl | rfl <;> rcases hq with rfl | rfl <;> simp

/-- Uppercasing the marker captured by `matchTime` yields AM or PM. -/
lemma matchTime_period {cs : List Char} {m : TimeMatch} (h : matchTime cs = some m) :
    m.periodStr.map Char.toUpper = ['A', 'M'] ∨ m.periodStr.map Char.toUpper = ['P', 'M'] := by
  simp only [matchTime, bind, Option.bind_eq_some] at h
  obtain ⟨⟨hDs, r1⟩, h1, h⟩ := h
  obtain ⟨r2, h2, h⟩ := h
  obtain ⟨⟨mDs, r3⟩, h3, h⟩ := h
  obtain ⟨⟨per, r5⟩, h5, h⟩ := h
  have hper := ampm_period_upper h5
  split at h
  · rw [Option.some.injEq] at h
    rw [← h]
    exact hper
  · exact absurd h (by simp)

/-- Uppercasing the marker captured by `matchEventSuffix` yields AM or PM. -/
lemma matchEventSuffix_period {cs per tz : List Char}
    (h : matchEventSuffix cs = some (per, tz)) :
    per.map Char.toUpper = ['A', 'M'] ∨ per.map Char.toUpper = ['P', 'M'] := by
  simp only [matchEventSuffix, bind, Option.bind_eq_some] at h
  obtain ⟨⟨per', r1⟩, h1, h⟩ := h
  obtain ⟨⟨sp, r2⟩, h2, h⟩ := h
  obtain ⟨⟨tz', r3⟩, h3, h⟩ := h
  have hper := ampm_period_upper h1
  split at h
  · rw [Option.some.injEq, Prod.mk.injEq] at h
    rw [← h.1]
    exact hper
  · exact absurd h (by simp)

/-- Uppercasing the marker captured by `matchEvent` yields AM or PM. -/
lemma matchEvent_period {cs : List Char} {m : EventMatch} (h : matchEvent cs = some m) :
    m.periodStr.map Char.toUpper = ['A', 'M'] ∨ m.periodStr.map Char.toUpper = ['P', 'M'] := by
  simp only [matchEvent, Option.bind_eq_some] at h
  obtain ⟨⟨mon, r1⟩, h1, h⟩ := h
  obtain ⟨⟨dayDs, r2⟩, h2, h⟩ := h
  obtain ⟨r3, h3, h⟩ := h
  obtain ⟨⟨sp, r4⟩, h4, h⟩ := h
  obtain ⟨⟨shDs, smDs, r5⟩, h5, h⟩ := h
  obtain ⟨r6, h6, h⟩ := h
  obtain ⟨⟨ehDs, emDs, r7⟩, h7, h⟩ := h
  obtain ⟨⟨per, tz⟩, h8, h⟩ := h
  rw [Option.some.injEq] at h
  rw [← h]
  exact matchEventSuffix_period h8

/-- Every value of the month table is a 0-indexed month, at most 11. -/
lemma MONTHS_le {k : List Char} {mo : Nat} (h : MONTHS k = some mo) : mo ≤ 11 := by
  unfold MONTHS at h
  rw [Option.map_eq_some'] at h
  obtain ⟨e, he, hsnd⟩ := h
  have hm := List.mem_of_find?_eq_some he
  simp only [MONTHS_TABLE, List.mem_cons, List.not_mem_nil, or_false] at hm
  rcases hm with rfl | rfl | rfl | rfl | rfl | rfl | rfl | rfl | rfl | rfl | rfl | rfl <;>
    simp at hsnd <;> omega

/-- Inversion of a successful parse: the fields are exactly the values
dateParser.js computes from the capture groups before calling `new Date`. -/
lemma parseEventFields_inv {s : String} {refY : Int} {f : EventFields}
    (hf : parseEventFields s refY = some f) :
    ∃ m mo, matchEvent s.data = some m ∧
      MONTHS ((m.monthStr.map Char.toLower).take 3) = some mo ∧
      f = { year := if mo < 11 then refY + 1 else refY,
            month := mo,
            day := natOfDigits m.dayStr,
            startHour :=
              if (m.periodStr.map Char.toUpper == ['P', 'M']) && (natOfDigits m.startHourStr != 12)
              then natOfDigits m.startHourStr + 12
              else if (!(m.periodStr.map Char.toUpper == ['P', 'M'])) && (natOfDigits m.startHourStr == 12)
              then 0 else natOfDigits m.startHourStr,
            startMin := natOfDigits m.startMinStr,
            endHour :=
              if (m.periodStr.map Char.toUpper == ['P', 'M']) && (natOfDigits m.endHourStr != 12)
              then natOfDigits m.endHourStr + 12
              else if (!(m.periodStr.map Char.toUpper == ['P', 'M'])) && (natOfDigits m.endHourStr == 12)
              then 0 else natOfDigits m.endHourStr,
            endMin := natOfDigits m.endMinStr,
            timezone := m.tzStr.map Char.toUpper } := by
  cases hm : matchEvent s.data with
  | none => simp [parseEventFields, hm] at hf
  | some m =>
    cases hmo : MONTHS ((m.monthStr.map Char.toLower).take 3) with
    | none => simp [parseEventFields, hm, hmo] at hf
    | some mo =>
      simp only [parseEventFields, hm, hmo] at hf
      exact ⟨m, mo, rfl, hmo, (Option.some.inj hf).symm⟩

/-- A parse yields no fields exactly when the pattern fails or the month key
is missing from the table. -/
lemma parseEventFields_none_iff (s : String) (refY : Int) :
    parseEventFields s refY = none ↔
      matchEvent s.data = none ∨
      ∃ m, matchEvent s.data = some m ∧
        MONTHS ((m.monthStr.map Char.toLower).take 3) = none := by
  cases hm : matchEvent s.data with
  | none => simp [parseEventFields, hm]
  | some m =>
    cases hmo : MONTHS ((m.monthStr.map Char.toLower).take 3) with
    | none => simp [parseEventFields, hm, hmo]
    | some mo => simp [parseEventFields, hm, hmo]

/-! ## Lemmas on escaping and folding -/

/-- Distribution of a single-character `replace` over concatenation. -/
lemma replaceChar_append (c : Char) (rep a b : List Char) :
    replaceChar c rep (a ++ b) = replaceChar c rep a ++ replaceChar c rep b := by
  induction a with
  | nil => rfl
  | cons x xs ih => simp [replaceChar, ih]

/-- Head step of the full escape chain: the four substitutions act on the
first character independently of the rest. -/
lemma escapeICSText_cons (c : Char) (cs : List Char) :
    escapeICSText (c :: cs) =
      (if c = '\\' then ['\\', '\\'] else if c = ';' then ['\\', ';']
       else if c = ',' then ['\\', ','] else if c = '\n' then ['\\', 'n'] else [c]) ++
      escapeICSText cs := by
  unfold escapeICSText
  rw [show replaceChar '\\' ['\\', '\\'] (c :: cs) =
    (if c = '\\' then ['\\', '\\'] else [c]) ++ replaceChar '\\' ['\\', '\\'] cs from rfl]
  rw [replaceChar_append, replaceChar_append, replaceChar_append]
  congr 1
  by_cases h1 : c = '\\'
  · subst h1; rfl
  · by_cases h2 : c = ';'
    · subst h2; rfl
    · by_cases h3 : c = ','
      · subst h3; rfl
      · by_cases h4 : c = '\n'
        · subst h4; rfl
        · simp [replaceChar, h1, h2, h3, h4]

/-- Shape of the continuation segments of `foldLine`: a space before each
chunk, the chunks reassemble the remainder, every chunk is short. -/
lemma foldRest_spec (rem : List Char) :
    ∃ chunks : List (List Char),
      foldRest rem = chunks.map (fun c => ' ' :: c) ∧
      chunks.flatten = rem ∧
      ∀ c ∈ chunks, c ≠ [] ∧ c.length ≤ 74 := by
  induction rem using foldRest.induct with
  | case1 => exact ⟨[], by simp [foldRest], rfl, by simp⟩
  | case2 c rest ih =>
    obtain ⟨chunks, h1, h2, h3⟩ := ih
    refine ⟨(c :: rest).take 74 :: chunks, ?_, ?_, ?_⟩
    · simp only [foldRest, h1, List.map_cons]
    · simp [h2]
    · intro x hx
      rcases List.mem_cons.mp hx with rfl | hx
      · exact ⟨by simp, by simp [List.length_take]⟩
      · exact h3 x hx

/-- Every physical segment emitted by `foldLine` is at most 75 characters. -/
lemma foldLine_mem_le {line p : List Char} (hp : p ∈ foldLine line) : p.length ≤ 75 := by
  unfold foldLine at hp
  split at hp
  · rename_i h
    rw [List.mem_singleton] at hp
    exact hp ▸ h
  · rcases List.mem_cons.mp hp with rfl | hp2
    · simp [List.length_take]
    · obtain ⟨chunks, h1, h2, h3⟩ := foldRest_spec (line.drop 75)
      rw [h1] at hp2
      obtain ⟨c, hc, rfl⟩ := List.mem_map.mp hp2
      have := (h3 c hc).2
      simp only [List.length_cons]
      omega

/-- Folding never discards a line entirely. -/
lemma foldLine_ne_nil (line : List Char) : foldLine line ≠ [] := by
  unfold foldLine
  split <;> simp

/-- Splitting on CRLF always yields at least one piece. -/
lemma splitCRLF_ne_nil (cs : List Char) : splitCRLF cs ≠ [] := by
  induction cs using splitCRLF.induct with
  | case1 => simp [splitCRLF]
  | case2 c => simp [splitCRLF]
  | case3 c d rest h ih => simp [splitCRLF, h]
  | case4 c d rest h hsp ih => exact absurd hsp ih
  | case5 c d rest h p ps hsp ih => simp [splitCRLF, h, hsp]

/-- Each CRLF-delimited piece is no longer than the text it came from. -/
lemma splitCRLF_mem_le {cs : List Char} : ∀ p ∈ splitCRLF cs, p.length ≤ cs.length := by
  induction cs using splitCRLF.induct with
  | case1 => simp [splitCRLF]
  | case2 c => simp [splitCRLF]
  | case3 c d rest h ih =>
    intro p hp
    rw [splitCRLF, if_pos h] at hp
    rcases List.mem_cons.mp hp with rfl | hp2
    · simp
    · have := ih p hp2
      simp only [List.length_cons]
      omega
  | case4 c d rest h hsp ih => exact absurd hsp (splitCRLF_ne_nil _)
  | case5 c d rest h q qs hsp ih =>
    intro p hp
    rw [splitCRLF, if_neg h, hsp] at hp
    rcases List.mem_cons.mp hp with rfl | hp2
    · have := ih q (hsp ▸ List.mem_cons_self q qs)
      simp only [List.length_cons] at this ⊢
      omega
    · have := ih p (hsp ▸ List.mem_cons_of_mem q hp2)
      simp only [List.length_cons] at this ⊢
      omega

/-- An explicit CRLF pair is always recognized as a delimiter: splitting a
concatenation around one splits each side independently. -/
lemma splitCRLF_append (a b : List Char) :
    splitCRLF (a ++ '\r' :: '\n' :: b) = splitCRLF a ++ splitCRLF b := by
  induction a using splitCRLF.induct with
  | case1 => simp [splitCRLF]
  | case2 c => simp [splitCRLF]
  | case3 c d rest h ih =>
    simp only [List.cons_append, splitCRLF, h, if_true]
    simp [ih]
  | case4 c d rest h hsp ih => exact absurd hsp (splitCRLF_ne_nil _)
  | case5 c d rest h p ps hsp ih =>
    have ih' : splitCRLF (d :: (rest ++ '\r' :: '\n' :: b)) = (p :: ps) ++ splitCRLF b := by
      rw [← List.cons_append, ih, hsp]
    simp only [List.cons_append, splitCRLF, if_neg h, hsp, List.append_eq]
    rw [ih']
    simp

/-- Splitting a CRLF-join gives the pieces of the joined segments. -/
lemma splitCRLF_joinCRLF : ∀ L : List (List Char), L ≠ [] →
    splitCRLF (joinCRLF L) = (L.map splitCRLF).flatten := by
  intro L
  induction L with
  | nil => intro h; exact absurd rfl h
  | cons x xs ih =>
    intro _
    cases xs with
    | nil => simp [joinCRLF]
    | cons y ys =>
      rw [show joinCRLF (x :: y :: ys) = x ++ '\r' :: '\n' :: joinCRLF (y :: ys) from rfl]
      rw [splitCRLF_append, ih (by simp)]
      simp

/-- The field list of `generateICS` is never empty. -/
lemma buildLines_ne_nil (now : JSDate) (uid : List Char) (ev : ICSEvent) :
    buildLines now uid ev ≠ [] := by
  simp [buildLines]

/-! ## Claim theorems -/

/-- C1: Shared meridiem inference in `parseEventDateTime`. For every input
accepted by the grammar whose parse succeeds, when the single trailing
marker is PM, a start hour of 12 stays 12 and every other start hour has 12
added; when it is AM, a start hour of 12 maps to 0 and every other start
hour passes through unchanged. The end hour gains 12 when PM and not 12,
maps to 0 when AM and 12, and is otherwise unchanged. -/
theorem sharedMeridiemInference (s : String) (refY : Int) (f : EventFields) (m : EventMatch)
    (hf : parseEventFields s refY = some f) (hm : matchEvent s.data = some m) :
    (m.periodStr.map Char.toUpper = ['P', 'M'] →
      f.startHour = (if natOfDigits m.startHourStr = 12 then 12 else natOfDigits m.startHourStr + 12) ∧
      f.endHour = (if natOfDigits m.endHourStr = 12 then natOfDigits m.endHourStr
        else natOfDigits m.endHourStr + 12)) ∧
    (m.periodStr.map Char.toUpper = ['A', 'M'] →
      f.startHour = (if natOfDigits m.startHourStr = 12 then 0 else natOfDigits m.startHourStr) ∧
      f.endHour = (if natOfDigits m.endHourStr = 12 then 0 else natOfDigits m.endHourStr)) := by
  obtain ⟨m', mo, hm', hmo, hfeq⟩ := parseEventFields_inv hf
  cases Option.some.inj (hm'.symm.trans hm)
  subst hfeq
  constructor
  · intro hPM
    refine ⟨?_, ?_⟩ <;> simp only [hPM] <;>
      [by_cases h12 : natOfDigits m.startHourStr = 12;
       by_cases h12 : natOfDigits m.endHourStr = 12] <;>
      simp [h12]
  · intro hAM
    refine ⟨?_, ?_⟩ <;> simp only [hAM] <;>
      [by_cases h12 : natOfDigits m.startHourStr = 12;
       by_cases h12 : natOfDigits m.endHourStr = 12] <;>
      simp [h12]

/-- C1 witness: the hours of `"Friday, Dec 5, 12:00 - 1:30 PM EST"` become
12:00 and 13:30 under shared-PM inference. -/
theorem sharedMeridiemInference_witness :
    parseEventFields "Friday, Dec 5, 12:00 - 1:30 PM EST" 2025 =
      some ⟨2025, 11, 5, 12, 0, 13, 30, ['E', 'S', 'T']⟩ ∧
    matchEvent "Friday, Dec 5, 12:00 - 1:30 PM EST".data =
      some ⟨['D', 'e', 'c'], ['5'], ['1', '2'], ['0', '0'], ['1'], ['3', '0'], ['P', 'M'], ['E', 'S', 'T']⟩ ∧
    ((12 : Nat) = (if natOfDigits ['1', '2'] = 12 then 12 else natOfDigits ['1', '2'] + 12) ∧
     (13 : Nat) = (if natOfDigits ['1'] = 12 then natOfDigits ['1'] else natOfDigits ['1'] + 12)) :=
  ⟨rfl, rfl,
    (sharedMeridiemInference "Friday, Dec 5, 12:00 - 1:30 PM EST" 2025
      ⟨2025, 11, 5, 12, 0, 13, 30, ['E', 'S', 'T']⟩
      ⟨['D', 'e', 'c'], ['5'], ['1', '2'], ['0', '0'], ['1'], ['3', '0'], ['P', 'M'], ['E', 'S', 'T']⟩
      rfl rfl).1 rfl⟩

/-- C2 counterexample: a clock hour of 13 is outside 1–12, yet
`parseEventDateTime` constructs a result instead of returning the "no
match" sentinel — the claim's out-of-range clause fails on the code. -/
theorem hourRangeNotChecked_cx :
    parseEventDateTimeStr "Thursday, Dec 4, 13:00 - 14:00 PM EST" 2025 =
      some ⟨⟨2025, 11, 5, 1, 0, 0⟩, ⟨2025, 11, 5, 2, 0, 0⟩, ['E', 'S', 'T']⟩ ∧
    12 < natOfDigits ['1', '3'] :=
  ⟨rfl, by decide⟩

/-- C2 (amended): `parseEventDateTime` returns the "no match" sentinel
exactly when the text fails the grammar or the month key is absent from the
table; numeric ranges are never checked. Totality of the embedding models
the absence of thrown errors, and the single fully-populated record models
the absence of partial results. -/
theorem parseNoMatchConditions (s : String) (refY : Int) :
    parseEventDateTimeStr s refY = none ↔
      matchEvent s.data = none ∨
      ∃ m, matchEvent s.data = some m ∧
        MONTHS ((m.monthStr.map Char.toLower).take 3) = none := by
  rw [← parseEventFields_none_iff s refY]
  cases hpf : parseEventFields s refY with
  | none => simp [parseEventDateTimeStr, hpf]
  | some f => simp [parseEventDateTimeStr, hpf]

/-- C3 counterexample: `"Monday, Dec 32, 10:00 - 11:00 AM EST"` parses with
month December and year argument 2025, but date normalization of day 32
makes both resulting instants carry year 2026 ≠ 2025 — the claim, stated
over the resulting instants, fails on the code. -/
theorem yearResolution_cx :
    parseEventDateTimeStr "Monday, Dec 32, 10:00 - 11:00 AM EST" 2025 =
      some ⟨⟨2026, 0, 1, 10, 0, 0⟩, ⟨2026, 0, 1, 11, 0, 0⟩, ['E', 'S', 'T']⟩ ∧
    parseEventFields "Monday, Dec 32, 10:00 - 11:00 AM EST" 2025 =
      some ⟨2025, 11, 32, 10, 0, 11, 0, ['E', 'S', 'T']⟩ ∧
    (2026 : Int) ≠ 2025 :=
  ⟨rfl, rfl, by decide⟩

/-- C3 (amended): the year argument passed to both `new Date` constructions
is `referenceYear` when the parsed month is December and `referenceYear + 1`
otherwise; the resulting instants' year can differ only through date
normalization of out-of-range day or hour values. -/
theorem yearResolutionArgument (s : String) (refY : Int) (f : EventFields)
    (hf : parseEventFields s refY = some f) :
    (f.month = 11 → f.year = refY) ∧ (f.month ≠ 11 → f.year = refY + 1) := by
  obtain ⟨m, mo, hm, hmo, hfeq⟩ := parseEventFields_inv hf
  have hle := MONTHS_le hmo
  subst hfeq
  constructor
  · intro h11
    simp only at h11
    simp [h11]
  · intro hne
    simp only at hne
    have : mo < 11 := by omega
    simp [this]

/-- C3 witness: a January parse against reference year 2025 carries year
argument 2026. -/
theorem yearResolutionArgument_witness :
    parseEventFields "Thursday, Jan 2, 10:00 - 11:00 AM EST" 2025 =
      some ⟨2026, 0, 2, 10, 0, 11, 0, ['E', 'S', 'T']⟩ ∧
    (((0 : Nat) = 11 → (2026 : Int) = 2025) ∧ ((0 : Nat) ≠ 11 → (2026 : Int) = 2025 + 1)) :=
  ⟨rfl, yearResolutionArgument "Thursday, Jan 2, 10:00 - 11:00 AM EST" 2025
    ⟨2026, 0, 2, 10, 0, 11, 0, ['E', 'S', 'T']⟩ rfl⟩

/-- C4 counterexample: an input ending in `"est"` yields timezone label
`"EST"`, not the verbatim source token — the claim's no-case-change clause
fails on the code, which applies `toUpperCase`. -/
theorem timezoneVerbatim_cx :
    parseEventDateTimeStr "Thursday, Dec 4, 10:00 - 11:00 AM est" 2025 =
      some ⟨⟨2025, 11, 4, 10, 0, 0⟩, ⟨2025, 11, 4, 11, 0, 0⟩, ['E', 'S', 'T']⟩ ∧
    (['E', 'S', 'T'] : List Char) ≠ ['e', 's', 't'] :=
  ⟨rfl, by decide⟩

/-- C4 (amended): for every successful parse the timezone label is the
source token converted with `toUpperCase`; no timezone validation and no
conversion of the instants is performed. -/
theorem timezoneUppercased (s : String) (refY : Int) (r : ParsedEvent) (m : EventMatch)
    (hr : parseEventDateTimeStr s refY = some r) (hm : matchEvent s.data = some m) :
    r.timezone = m.tzStr.map Char.toUpper := by
  cases hpf : parseEventFields s refY with
  | none => simp [parseEventDateTimeStr, hpf] at hr
  | some f =>
    simp only [parseEventDateTimeStr, hpf] at hr
    obtain ⟨m', mo, hm', hmo, hfeq⟩ := parseEventFields_inv hpf
    cases Option.some.inj (hm'.symm.trans hm)
    rw [← Option.some.inj hr]
    subst hfeq
    rfl

/-- C4 witness: the timezone token `"pst"` is carried to the result as
`"PST"`. -/
theorem timezoneUppercased_witness :
    parseEventDateTimeStr "Monday, Dec 8, 1:00 - 2:00 PM pst" 2025 =
      some ⟨⟨2025, 11, 8, 13, 0, 0⟩, ⟨2025, 11, 8, 14, 0, 0⟩, ['P', 'S', 'T']⟩ ∧
    matchEvent "Monday, Dec 8, 1:00 - 2:00 PM pst".data =
      some ⟨['D', 'e', 'c'], ['8'], ['1'], ['0', '0'], ['2'], ['0', '0'], ['P', 'M'], ['p', 's', 't']⟩ ∧
    (['P', 'S', 'T'] : List Char) = ['p', 's', 't'].map Char.toUpper :=
  ⟨rfl, rfl,
    timezoneUppercased "Monday, Dec 8, 1:00 - 2:00 PM pst" 2025
      ⟨⟨2025, 11, 8, 13, 0, 0⟩, ⟨2025, 11, 8, 14, 0, 0⟩, ['P', 'S', 'T']⟩
      ⟨['D', 'e', 'c'], ['8'], ['1'], ['0', '0'], ['2'], ['0', '0'], ['P', 'M'], ['p', 's', 't']⟩
      rfl rfl⟩

/-- C5: Line folding in `generateICS`. Every physical line of the output,
delimited by CRLF, has length at most 75; and a logical field line longer
than 75 characters is folded into its first 75 characters followed by
continuation segments, each a single space plus up to 74 further characters
of the original content, until the remainder is exhausted. -/
theorem icsLineFolding :
    (∀ (now : JSDate) (uid : List Char) (ev : ICSEvent),
      ∀ p ∈ splitCRLF (generateICS now uid ev), p.length ≤ 75) ∧
    (∀ line : List Char, 75 < line.length →
      ∃ chunks : List (List Char),
        foldLine line = line.take 75 :: chunks.map (fun c => ' ' :: c) ∧
        chunks.flatten = line.drop 75 ∧
        ∀ c ∈ chunks, c ≠ [] ∧ c.length ≤ 74) := by
  constructor
  · intro now uid ev p hp
    unfold generateICS at hp
    rw [splitCRLF_joinCRLF _ (by simp [buildLines]), List.mem_flatten] at hp
    obtain ⟨l, hl, hpl⟩ := hp
    rw [List.mem_map] at hl
    obtain ⟨l2, hl2, rfl⟩ := hl
    rw [List.mem_map] at hl2
    obtain ⟨line, hline, rfl⟩ := hl2
    rw [foldLineStr, splitCRLF_joinCRLF _ (foldLine_ne_nil line), List.mem_flatten] at hpl
    obtain ⟨l3, hl3, hpl3⟩ := hpl
    rw [List.mem_map] at hl3
    obtain ⟨seg, hseg, rfl⟩ := hl3
    exact le_trans (splitCRLF_mem_le p hpl3) (foldLine_mem_le hseg)
  · intro line hlen
    obtain ⟨chunks, h1, h2, h3⟩ := foldRest_spec (line.drop 75)
    refine ⟨chunks, ?_, h2, h3⟩
    unfold foldLine
    rw [if_neg (by omega), h1]

/-- C5 witness: folding a line of 80 identical characters. -/
theorem icsLineFolding_witness :
    75 < (List.replicate 80 'a').length ∧
    ∃ chunks : List (List Char),
      foldLine (List.replicate 80 'a') =
        (List.replicate 80 'a').take 75 :: chunks.map (fun c => ' ' :: c) ∧
      chunks.flatten = (List.replicate 80 'a').drop 75 ∧
      ∀ c ∈ chunks, c ≠ [] ∧ c.length ≤ 74 :=
  ⟨by simp, icsLineFolding.2 (List.replicate 80 'a') (by simp)⟩

/-- C6: Text escaping order in `escapeICSText`. The escape is the sequential
composition backslash, then semicolon, then comma, then newline — and that
order makes it equal to the single-pass escape in which each special
character of the input is escaped exactly once (no double-escaping of the
introduced backslashes). -/
theorem escapeOrdered (text : List Char) :
    escapeICSText text =
      replaceChar '\n' ['\\', 'n']
        (replaceChar ',' ['\\', ',']
          (replaceChar ';' ['\\', ';']
            (replaceChar '\\' ['\\', '\\'] text))) ∧
    escapeICSText text = escapeICSTextSpec text := by
  refine ⟨rfl, ?_⟩
  induction text with
  | nil => rfl
  | cons c cs ih => rw [escapeICSText_cons, escapeICSTextSpec, ih]

/-- C7: `parseTime` maps `"12:00 AM"` to hour 0 and `"12:00 PM"` to hour 12,
accepts a lowercase marker with no space, rejects any matched token whose
hour lies outside 1–12, and converts every in-range token to 24-hour form:
PM adds 12 except at 12, AM passes through except 12 mapping to 0. -/
theorem parseTimeSpec :
    parseTime "12:00 AM" = some ⟨0, 0⟩ ∧
    parseTime "12:00 PM" = some ⟨12, 0⟩ ∧
    parseTime "1:00pm" = some ⟨13, 0⟩ ∧
    (∀ (s : String) (m : TimeMatch), matchTime s.data = some m →
      natOfDigits m.hoursStr < 1 ∨ 12 < natOfDigits m.hoursStr → parseTime s = none) ∧
    (∀ (s : String) (m : TimeMatch), matchTime s.data = some m →
      1 ≤ natOfDigits m.hoursStr → natOfDigits m.hoursStr ≤ 12 →
      parseTime s = some ⟨
        (if m.periodStr.map Char.toUpper = ['P', 'M'] then
          (if natOfDigits m.hoursStr = 12 then 12 else natOfDigits m.hoursStr + 12)
        else
          (if natOfDigits m.hoursStr = 12 then 0 else natOfDigits m.hoursStr)),
        natOfDigits m.minutesStr⟩) := by
  refine ⟨rfl, rfl, rfl, ?_, ?_⟩
  · intro s m h hrange
    simp only [parseTime, h]
    rcases hrange with h1 | h1 <;> simp [h1]
  · intro s m h h1 h12
    have hper := matchTime_period h
    simp only [parseTime, h]
    rcases hper with hAM | hPM
    · rw [hAM]
      by_cases hh : natOfDigits m.hoursStr = 12 <;>
        simp [hh, show ¬(natOfDigits m.hoursStr < 1) by omega,
          show ¬(12 < natOfDigits m.hoursStr) by omega]
    · rw [hPM]
      by_cases hh : natOfDigits m.hoursStr = 12 <;>
        simp [hh, show ¬(natOfDigits m.hoursStr < 1) by omega,
          show ¬(12 < natOfDigits m.hoursStr) by omega]

/-- C7 witness: the token `"13:00 PM"` matches the pattern with hour 13,
which is out of range, so `parseTime` rejects it. -/
theorem parseTimeSpec_witness :
    matchTime "13:00 PM".data = some ⟨['1', '3'], ['0', '0'], ['P', 'M']⟩ ∧
    (natOfDigits ['1', '3'] < 1 ∨ 12 < natOfDigits ['1', '3']) ∧
    parseTime "13:00 PM" = none :=
  ⟨rfl, by decide,
    parseTimeSpec.2.2.2.1 "13:00 PM" ⟨['1', '3'], ['0', '0'], ['P', 'M']⟩ rfl (by decide)⟩

/-- C9: the guard clause of `parseEventDateTime` returns the "no match"
sentinel for every non-string argument and for the empty string, before any
pattern matching is attempted. -/
theorem guardNonString (v : JSValue) (refY : Int)
    (h : (∀ t, v ≠ JSValue.str t) ∨ v = JSValue.str "") :
    parseEventDateTimeJS v refY = none := by
  cases v with
  | str s =>
    rcases h with h | h
    · exact absurd rfl (h s)
    · cases h
      rfl
  | num n => rfl
  | boolean b => rfl
  | null => rfl
  | undefined => rfl

/-- C9 witness: a `null` argument yields the sentinel. -/
theorem guardNonString_witness :
    ((∀ t, JSValue.null ≠ JSValue.str t) ∨ JSValue.null = JSValue.str "") ∧
    parseEventDateTimeJS JSValue.null 2025 = none :=
  ⟨Or.inl fun _ h => JSValue.noConfusion h,
    guardNonString JSValue.null 2025 (Or.inl fun _ h => JSValue.noConfusion h)⟩

/-- C10: month recognition looks only at the first three characters of the
month token, lowercased: the parse produces fields exactly when that key is
in the twelve-entry table, and the month index of the result is the table
value — the characters after the first three never matter. -/
theorem monthRecognition (s : String) (refY : Int) (m : EventMatch)
    (hm : matchEvent s.data = some m) :
    (parseEventFields s refY).map EventFields.month =
      MONTHS ((m.monthStr.map Char.toLower).take 3) := by
  cases hmo : MONTHS ((m.monthStr.map Char.toLower).take 3) with
  | none =>
    rw [(parseEventFields_none_iff s refY).mpr (Or.inr ⟨m, hm, hmo⟩)]
    rfl
  | some mo => simp [parseEventFields, hm, hmo]

/-- C10 witness: the token `"Marzipan"` begins with `"Mar"` and is accepted
as March (month index 2). -/
theorem monthRecognition_witness :
    matchEvent "Monday, Marzipan 4, 10:00 - 11:00 AM EST".data =
      some ⟨['M', 'a', 'r', 'z', 'i', 'p', 'a', 'n'], ['4'], ['1', '0'], ['0', '0'],
        ['1', '1'], ['0', '0'], ['A', 'M'], ['E', 'S', 'T']⟩ ∧
    (parseEventFields "Monday, Marzipan 4, 10:00 - 11:00 AM EST" 2025).map EventFields.month =
      MONTHS ((['M', 'a', 'r', 'z', 'i', 'p', 'a', 'n'].map Char.toLower).take 3) ∧
    MONTHS ((['M', 'a', 'r', 'z', 'i', 'p', 'a', 'n'].map Char.toLower).take 3) = some 2 :=
  ⟨rfl, monthRecognition "Monday, Marzipan 4, 10:00 - 11:00 AM EST" 2025
    ⟨['M', 'a', 'r', 'z', 'i', 'p', 'a', 'n'], ['4'], ['1', '0'], ['0', '0'],
      ['1', '1'], ['0', '0'], ['A', 'M'], ['E', 'S', 'T']⟩ rfl, rfl⟩
